import Mathlib

/-!
# The Redis session store of `scs` (`stores/redisstore/redisstore.go`)

A shallow embedding of `RedisStore.Find`, `Save`, `Delete`, `DeleteByPattern` and
`makeMillisecondTimestamp`.  The store talks to its backend through a Redigo
connection; the connection is a parameter of every operation here (`Conn`), so a
statement over every `Conn` is a statement over every behaviour of the backend.
Two connections are defined for the statements that need one: `scripted`, which
answers from a fixed list of replies, and `server`, a key-value server with
per-key absolute expiry and MULTI/EXEC queuing.
-/

namespace RedisStore

/-! ## Data model -/

/-- A Go byte slice. -/
abbrev Bytes := List UInt8

/-- A Go error value as the store tells them apart: `redis.ErrNil` or anything else. -/
inductive Err where
  | ErrNil
  | other (msg : String)
  deriving DecidableEq, Repr

/-- The commands the store issues, with their arguments. -/
inductive Command where
  | GET (key : String)
  | MULTI
  | SET (key : String) (b : Bytes)
  | PEXPIREAT (key : String) (ms : Int)
  | EXEC
  | DEL (key : String)
  | SCAN (itr : Int) (matchPattern : String)
  | UNLINK (key : String)
  deriving DecidableEq, Repr

/-- A reply value handed back by `conn.Do`.  An array reply is given by what the
store reads from it: `itr` is `redis.Int(arr[0], nil)` and `keys` is
`redis.Strings(arr[1], nil)` (the errors of both are dropped by the store). -/
inductive Value where
  | nil
  | int (n : Int)
  | status (s : String)
  | bulk (b : Bytes)
  | array (itr : Int) (keys : List String)
  deriving DecidableEq, Repr

/-- The pair `(reply, err)` returned by `conn.Do`. -/
abbrev Reply := Except Err Value

/-- A Redigo connection over a backend with states `σ`: `Do` sends a command and
reads its reply, `Send` only writes the command, `Close` is the deferred
`conn.Close()`. -/
structure Conn (σ : Type) where
  Do : Command → σ → Reply × σ
  Send : Command → σ → Option Err × σ
  Close : σ → σ

/-- The package variable `Prefix`, `"scs:session:"` unless the caller changes it. -/
def Prefix : String := "scs:session:"

/-- The error `redis.Bytes` and `redis.MultiBulk` return for a reply of a kind they
do not convert. -/
def errUnexpectedType : Err := Err.other "redigo: unexpected type"

/-- The helper `redis.Bytes(reply, err)`: a bulk string is returned as is, a simple string as
its bytes, a nil reply is `redis.ErrNil`, an error is passed on. -/
def redisBytes : Reply → Option Bytes × Option Err
  | .error err => (none, some err)
  | .ok (.bulk b) => (some b, none)
  | .ok (.status s) => (some s.toUTF8.toList, none)
  | .ok .nil => (none, some Err.ErrNil)
  | .ok _ => (none, some errUnexpectedType)

/-- The helper `redis.MultiBulk(reply, err)` followed by the two reads of the store,
`redis.Int(arr[0], nil)` and `redis.Strings(arr[1], nil)`. -/
def redisMultiBulk : Reply → Except Err (Int × List String)
  | .error err => .error err
  | .ok (.array itr keys) => .ok (itr, keys)
  | .ok .nil => .error Err.ErrNil
  | .ok _ => .error errUnexpectedType

/-! ## Time -/

/-- A `time.Time` instant: the nanoseconds elapsed since the Unix epoch, negative
before it, of any size. -/
structure Time where
  nanos : Int
  deriving DecidableEq, Repr

/-- Two's complement reduction to a signed 64-bit integer. -/
def wrapInt64 (x : Int) : Int := (x + 2 ^ 63) % 2 ^ 64 - 2 ^ 63

/-- The method `t.UnixNano()`: an `int64`, so the nanosecond count reduced to 64 bits. -/
def Time.UnixNano (t : Time) : Int := wrapInt64 t.nanos

/-- The constant `time.Millisecond`, a `time.Duration` in nanoseconds. -/
def Millisecond : Int := 1000000

/-- The constant `time.Nanosecond`. -/
def Nanosecond : Int := 1

/-- The function `makeMillisecondTimestamp`: both divisions are Go `int64` divisions, which
truncate toward zero. -/
def makeMillisecondTimestamp (t : Time) : Int :=
  wrapInt64 (Int.tdiv t.UnixNano (wrapInt64 (Int.tdiv Millisecond Nanosecond)))

/-! ## The four operations -/

/-- The triple `(b, exists, err)` returned by `Find`; `none` is Go `nil`. -/
structure Found where
  b : Option Bytes
  found : Bool
  err : Option Err
  deriving DecidableEq, Repr

/-- The method `RedisStore.Find` (lines 35 to 46). -/
def Find {σ : Type} (conn : Conn σ) (token : String) (s : σ) : Found × σ :=
  let (reply, s1) := conn.Do (.GET (Prefix ++ token)) s
  match redisBytes reply with
  | (_, some Err.ErrNil) => (⟨none, false, none⟩, conn.Close s1)
  | (_, some err) => (⟨none, false, some err⟩, conn.Close s1)
  | (b, none) => (⟨b, true, none⟩, conn.Close s1)

/-- The method `RedisStore.Save` (lines 50 to 68). -/
def Save {σ : Type} (conn : Conn σ) (token : String) (b : Bytes) (expiry : Time) (s : σ) :
    Option Err × σ :=
  match conn.Send .MULTI s with
  | (some err, s1) => (some err, conn.Close s1)
  | (none, s1) =>
    match conn.Send (.SET (Prefix ++ token) b) s1 with
    | (some err, s2) => (some err, conn.Close s2)
    | (none, s2) =>
      match conn.Send (.PEXPIREAT (Prefix ++ token) (makeMillisecondTimestamp expiry)) s2 with
      | (some err, s3) => (some err, conn.Close s3)
      | (none, s3) =>
        match conn.Do .EXEC s3 with
        | (.error err, s4) => (some err, conn.Close s4)
        | (.ok _, s4) => (none, conn.Close s4)

/-- The method `RedisStore.Delete` (lines 71 to 77). -/
def Delete {σ : Type} (conn : Conn σ) (token : String) (s : σ) : Option Err × σ :=
  match conn.Do (.DEL (Prefix ++ token)) s with
  | (.error err, s1) => (some err, conn.Close s1)
  | (.ok _, s1) => (none, conn.Close s1)

/-- The `for` loop of `DeleteByPattern` that scans (lines 89 to 104).  `fuel` bounds
the number of iterations; `none` means the loop is still running when it is used
up.  Each page assigns `keys` anew, so the loop leaves with the keys of the page
that carried cursor 0. -/
def scanLoop {σ : Type} (conn : Conn σ) (matchPattern : String) :
    Nat → Int → σ → Option (Except Err (List String)) × σ
  | 0, _, s => (none, s)
  | fuel + 1, itr, s =>
    let (reply, s1) := conn.Do (.SCAN itr matchPattern) s
    match redisMultiBulk reply with
    | .error err => (some (.error err), s1)
    | .ok (itr1, keys) =>
      if itr1 = 0 then (some (.ok keys), s1) else scanLoop conn matchPattern fuel itr1 s1

/-- The `for _, key := range keys` loop of `DeleteByPattern` (lines 108 to 113). -/
def unlinkAll {σ : Type} (conn : Conn σ) : List String → σ → Option Err × σ
  | [], s => (none, s)
  | key :: rest, s =>
    match conn.Do (.UNLINK key) s with
    | (.error err, s1) => (some err, s1)
    | (.ok _, s1) => unlinkAll conn rest s1

/-- The method `RedisStore.DeleteByPattern` (lines 80 to 115).  The outer `none` is the scan loop not having
left within `fuel` iterations (the deferred close has not run then). -/
def DeleteByPattern {σ : Type} (conn : Conn σ) (fuel : Nat) (pattern : String) (s : σ) :
    Option (Option Err) × σ :=
  let matchPattern := Prefix ++ pattern ++ "*"
  match scanLoop conn matchPattern fuel 0 s with
  | (none, s1) => (none, s1)
  | (some (.error err), s1) => (some (some err), conn.Close s1)
  | (some (.ok keys), s1) =>
    let (err, s2) := unlinkAll conn keys s1
    (some err, conn.Close s2)

/-! ## Recording what a connection was asked -/

/-- What became of one command: `Send` returned nil, `Send` or `Do` returned an
error, or `Do` returned a reply. -/
inductive Outcome where
  | sent
  | failed (err : Err)
  | replied (v : Value)
  deriving DecidableEq, Repr

/-- One command issued on a connection, with its outcome. -/
structure Call where
  cmd : Command
  outcome : Outcome
  deriving DecidableEq, Repr

/-- The outcome of a `Do`. -/
def Outcome.ofReply : Reply → Outcome
  | .error err => .failed err
  | .ok v => .replied v

/-- The outcome of a `Send`. -/
def Outcome.ofSend : Option Err → Outcome
  | some err => .failed err
  | none => .sent

/-- The connection `conn` with a record of every command issued on it, oldest
first.  The record does not change what `conn` does. -/
def logged {σ : Type} (conn : Conn σ) : Conn (σ × List Call) where
  Do cmd st :=
    let (reply, s1) := conn.Do cmd st.1
    (reply, (s1, st.2 ++ [⟨cmd, Outcome.ofReply reply⟩]))
  Send cmd st :=
    let (err, s1) := conn.Send cmd st.1
    (err, (s1, st.2 ++ [⟨cmd, Outcome.ofSend err⟩]))
  Close st := (conn.Close st.1, st.2)

/-- The error of a connection that has nothing left to answer with. -/
def errClosed : Err := Err.other "connection closed"

/-- A connection that answers the commands issued on it, whatever they are, from a
list of replies, one per command; once the list is used up every command fails. -/
def scripted : Conn (List Reply) where
  Do _ rs :=
    match rs with
    | [] => (.error errClosed, [])
    | r :: rest => (r, rest)
  Send _ rs :=
    match rs with
    | [] => (some errClosed, [])
    | .error err :: rest => (some err, rest)
    | .ok _ :: rest => (none, rest)
  Close rs := rs

/-! ## A key-value server with absolute expiry and MULTI/EXEC -/

/-- A stored value and its absolute expiry in milliseconds since the epoch, if any. -/
structure Entry where
  payload : Bytes
  expireAt : Option Int
  deriving DecidableEq, Repr

/-- A failure of one round trip: the command never reaches the server, or the
server runs it and the reply is lost. -/
inductive Fault where
  | dropped (err : Err)
  | replyLost (err : Err)
  deriving DecidableEq, Repr

/-- The server and the connection to it: the keyspace, the clock in nanoseconds
since the epoch, the commands queued since MULTI (`none` outside a transaction),
the reply the server gives to SCAN for a cursor and a match expression, and the
faults of the coming round trips (`none` for a round trip that works; past the
end of the list every round trip works). -/
structure Server where
  store : String → Option Entry
  clock : Nat
  queue : Option (List Command)
  pages : Int → String → Int × List String
  faults : List (Option Fault)

/-- The clock of the server in milliseconds. -/
def Server.nowMs (s : Server) : Int := ((s.clock / 1000000 : Nat) : Int)

/-- The entry under `key` as commands see it: a key is absent once the clock in
milliseconds has reached its expiry. -/
def Server.lookup (s : Server) (key : String) : Option Entry :=
  match s.store key with
  | none => none
  | some en =>
    match en.expireAt with
    | none => some en
    | some ms => if s.nowMs < ms then some en else none

/-- One command run by the server outside MULTI. -/
def Server.run (s : Server) : Command → Value × Server
  | .GET key =>
    match s.lookup key with
    | some en => (.bulk en.payload, s)
    | none => (.nil, s)
  | .SET key b => (.status "OK", { s with store := Function.update s.store key (some ⟨b, none⟩) })
  | .PEXPIREAT key ms =>
    match s.lookup key with
    | some en =>
      (.int 1, { s with store := Function.update s.store key (some ⟨en.payload, some ms⟩) })
    | none => (.int 0, s)
  | .DEL key =>
    (.int (if (s.lookup key).isSome then 1 else 0),
      { s with store := Function.update s.store key none })
  | .UNLINK key =>
    (.int (if (s.lookup key).isSome then 1 else 0),
      { s with store := Function.update s.store key none })
  | .SCAN itr matchPattern => (.array (s.pages itr matchPattern).1 (s.pages itr matchPattern).2, s)
  | .MULTI => (.status "OK", s)
  | .EXEC => (.status "OK", s)

/-- The queued commands run one after the other. -/
def Server.runAll (s : Server) : List Command → Server
  | [] => s
  | cmd :: rest => Server.runAll (s.run cmd).2 rest

/-- One command as the server receives it: MULTI opens the queue, EXEC runs the
queue in one step, anything else is queued inside a transaction and run outside. -/
def Server.serve (s : Server) (cmd : Command) : Reply × Server :=
  match cmd, s.queue with
  | .MULTI, none => (.ok (.status "OK"), { s with queue := some [] })
  | .MULTI, some _ => (.error (.other "ERR MULTI calls can not be nested"), s)
  | .EXEC, none => (.error (.other "ERR EXEC without MULTI"), s)
  | .EXEC, some q => (.ok (.array 0 []), Server.runAll { s with queue := none } q)
  | _, some q => (.ok (.status "QUEUED"), { s with queue := some (q ++ [cmd]) })
  | _, none => let (v, s1) := s.run cmd; (.ok v, s1)

/-- The fault of the coming round trip, if it has one. -/
def Server.nextFault (s : Server) : Option Fault :=
  match s.faults with
  | [] => none
  | f :: _ => f

/-- The server once the coming round trip is over, its fault used up. -/
def Server.pop (s : Server) : Server := { s with faults := s.faults.tail }

/-- One round trip: the next fault, if there is one, decides whether the command
reaches the server and whether its reply comes back. -/
def Server.roundTrip (s : Server) (cmd : Command) : Reply × Server :=
  match s.nextFault with
  | none => s.pop.serve cmd
  | some (.dropped err) => (.error err, s.pop)
  | some (.replyLost err) => (.error err, (s.pop.serve cmd).2)

/-- The connection to the server.  `Send` does not read the reply, so it fails
only by a fault; closing the connection discards an open transaction. -/
def server : Conn Server where
  Do cmd s := s.roundTrip cmd
  Send cmd s :=
    match s.nextFault with
    | none => (none, (s.pop.serve cmd).2)
    | some (.dropped err) => (some err, s.pop)
    | some (.replyLost err) => (some err, (s.pop.serve cmd).2)
  Close s := { s with queue := none }

/-- The server with its clock moved to `clock` nanoseconds, all else as it is. -/
def Server.atClock (s : Server) (clock : Nat) : Server :=
  ⟨s.store, clock, s.queue, s.pages, s.faults⟩

/-- A server that holds no key, with its clock at `clock` nanoseconds, whose SCAN
finds nothing and whose round trips all work. -/
def emptyServer (clock : Nat) : Server :=
  ⟨fun _ => none, clock, none, fun _ _ => (0, []), []⟩

/-- A server that holds `scs:session:a_1` and `scs:session:a_2` without expiry and
answers SCAN in two pages: the first key with cursor 5, then the second with
cursor 0. -/
def twoPageServer : Server :=
  ⟨fun key =>
      if key = "scs:session:a_1" ∨ key = "scs:session:a_2" then some ⟨[120], none⟩ else none,
    0, none,
    fun itr _ => if itr = 0 then (5, ["scs:session:a_1"]) else (0, ["scs:session:a_2"]),
    []⟩

/-- The replies of SCAN calls that succeed, one per page `(cursor, keys)`. -/
def pageReplies (pages : List (Int × List String)) : List Reply :=
  pages.map fun page => .ok (.array page.1 page.2)

/-- The record of a scan answered page after page, started at cursor `itr`. -/
def scanCalls (matchPattern : String) : Int → List (Int × List String) → List Call
  | _, [] => []
  | itr, page :: rest =>
    ⟨.SCAN itr matchPattern, .replied (.array page.1 page.2)⟩ ::
      scanCalls matchPattern page.1 rest

/-- The record of removals that succeed, one reply per key. -/
def unlinkCalls (keys : List String) (replies : List Value) : List Call :=
  List.zipWith (fun key v => ⟨.UNLINK key, .replied v⟩) keys replies

/-- A server that holds the keys of the tokens `foo_1`, `foo_2` and `bar_1` and
answers SCAN in one page with the two keys that start with `scs:session:foo_`. -/
def fooBarServer : Server :=
  ⟨fun key =>
      if key = "scs:session:foo_1" ∨ key = "scs:session:foo_2" ∨ key = "scs:session:bar_1"
      then some ⟨[120], none⟩ else none,
    0, none, fun _ _ => (0, ["scs:session:foo_1", "scs:session:foo_2"]), []⟩

/-- An empty server on which the first three round trips work and the reply of the
fourth is lost. -/
def lostReplyServer : Server :=
  ⟨fun _ => none, 0, none, fun _ _ => (0, []),
    [none, none, none, some (.replyLost (.other "EOF"))]⟩

/-! ## Arithmetic of the timestamp -/

theorem wrapInt64_of_range {x : Int} (h0 : -2 ^ 63 ≤ x) (h1 : x < 2 ^ 63) : wrapInt64 x = x := by
  unfold wrapInt64
  norm_num at h0 h1 ⊢
  omega

theorem wrapInt64_range (x : Int) : -2 ^ 63 ≤ wrapInt64 x ∧ wrapInt64 x < 2 ^ 63 := by
  unfold wrapInt64
  norm_num
  omega

theorem wrapInt64_le {x : Int} (h0 : -2 ^ 63 ≤ x) : wrapInt64 x ≤ x := by
  unfold wrapInt64
  norm_num at h0 ⊢
  omega

theorem millisecond_divisor : wrapInt64 (Int.tdiv Millisecond Nanosecond) = 1000000 := by
  decide

theorem tdiv_million_of_nonneg {a : Int} (h : 0 ≤ a) : Int.tdiv a 1000000 = a / 1000000 :=
  Int.tdiv_eq_ediv h (by norm_num)

theorem tdiv_million_of_neg {a : Int} (h : a < 0) : Int.tdiv a 1000000 = -((-a) / 1000000) := by
  have h2 : Int.tdiv (-a) 1000000 = (-a) / 1000000 := Int.tdiv_eq_ediv (by omega) (by norm_num)
  rw [← h2, Int.neg_tdiv, neg_neg]

/-- The outer conversion of `makeMillisecondTimestamp` never overflows: the quotient
of an `int64` by a million is an `int64`. -/
theorem makeMillisecondTimestamp_eq_tdiv (t : Time) :
    makeMillisecondTimestamp t = Int.tdiv t.UnixNano 1000000 := by
  unfold makeMillisecondTimestamp
  rw [millisecond_divisor]
  have hr := wrapInt64_range t.nanos
  apply wrapInt64_of_range
  · rcases lt_or_le t.UnixNano 0 with h | h
    · rw [tdiv_million_of_neg h]
      unfold Time.UnixNano at h ⊢
      norm_num at hr ⊢
      omega
    · rw [tdiv_million_of_nonneg h]
      unfold Time.UnixNano at h ⊢
      norm_num at hr ⊢
      omega
  · rcases lt_or_le t.UnixNano 0 with h | h
    · rw [tdiv_million_of_neg h]
      unfold Time.UnixNano at h ⊢
      norm_num at hr ⊢
      omega
    · rw [tdiv_million_of_nonneg h]
      unfold Time.UnixNano at h ⊢
      norm_num at hr ⊢
      omega

theorem makeMillisecondTimestamp_of_nonneg {t : Time} (h0 : 0 ≤ t.nanos)
    (h1 : t.nanos < 2 ^ 63) : makeMillisecondTimestamp t = t.nanos / 1000000 := by
  have hu : t.UnixNano = t.nanos := wrapInt64_of_range (by norm_num; omega) h1
  rw [makeMillisecondTimestamp_eq_tdiv, hu, tdiv_million_of_nonneg h0]

/-- The timestamp never lies after the clock reading of an instant later than the
expiry, provided the expiry is not below the least `int64` nanosecond count. -/
theorem makeMillisecondTimestamp_le_clock {t : Time} (h0 : -2 ^ 63 ≤ t.nanos) {clock : Nat}
    (h : t.nanos < (clock : Int)) : makeMillisecondTimestamp t ≤ ((clock / 1000000 : Nat) : Int) := by
  have hle : t.UnixNano ≤ t.nanos := wrapInt64_le h0
  rw [makeMillisecondTimestamp_eq_tdiv]
  rcases lt_or_le t.UnixNano 0 with hn | hn
  · rw [tdiv_million_of_neg hn]
    omega
  · rw [tdiv_million_of_nonneg hn]
    omega

/-! ## What the record shows, on every connection -/

@[simp] theorem logged_Do {σ : Type} (conn : Conn σ) (cmd : Command) (st : σ × List Call) :
    (logged conn).Do cmd st =
      ((conn.Do cmd st.1).1,
        ((conn.Do cmd st.1).2, st.2 ++ [⟨cmd, Outcome.ofReply (conn.Do cmd st.1).1⟩])) := rfl

@[simp] theorem logged_Send {σ : Type} (conn : Conn σ) (cmd : Command) (st : σ × List Call) :
    (logged conn).Send cmd st =
      ((conn.Send cmd st.1).1,
        ((conn.Send cmd st.1).2, st.2 ++ [⟨cmd, Outcome.ofSend (conn.Send cmd st.1).1⟩])) := rfl

@[simp] theorem logged_Close {σ : Type} (conn : Conn σ) (st : σ × List Call) :
    (logged conn).Close st = (conn.Close st.1, st.2) := rfl

@[simp] theorem scripted_Close (rs : List Reply) : scripted.Close rs = rs := rfl

/-- Recording does not change what `Save` returns, nor the state it leaves. -/
theorem Save_logged {σ : Type} (conn : Conn σ) (token : String) (b : Bytes) (expiry : Time)
    (s : σ) (l : List Call) :
    (Save (logged conn) token b expiry (s, l)).1 = (Save conn token b expiry s).1 ∧
    (Save (logged conn) token b expiry (s, l)).2.1 = (Save conn token b expiry s).2 := by
  simp only [Save, logged_Do, logged_Send, logged_Close]
  rcases conn.Send .MULTI s with ⟨_ | e1, s1⟩ <;> simp
  rcases conn.Send (.SET (Prefix ++ token) b) s1 with ⟨_ | e2, s2⟩ <;> simp
  rcases conn.Send (.PEXPIREAT (Prefix ++ token) (makeMillisecondTimestamp expiry)) s2
    with ⟨_ | e3, s3⟩ <;> simp
  rcases conn.Do .EXEC s3 with ⟨_ | v, s4⟩ <;> simp

/-- The commands of one `Save`, in the order issued: the four of the transaction up
to the first that fails, whose error is returned. -/
theorem Save_calls {σ : Type} (conn : Conn σ) (token : String) (b : Bytes) (expiry : Time)
    (s : σ) :
    (∃ e, Save (logged conn) token b expiry (s, []) =
        (some e, ((Save conn token b expiry s).2, [⟨.MULTI, .failed e⟩]))) ∨
    (∃ e, Save (logged conn) token b expiry (s, []) =
        (some e, ((Save conn token b expiry s).2,
          [⟨.MULTI, .sent⟩, ⟨.SET (Prefix ++ token) b, .failed e⟩]))) ∨
    (∃ e, Save (logged conn) token b expiry (s, []) =
        (some e, ((Save conn token b expiry s).2,
          [⟨.MULTI, .sent⟩, ⟨.SET (Prefix ++ token) b, .sent⟩,
           ⟨.PEXPIREAT (Prefix ++ token) (makeMillisecondTimestamp expiry), .failed e⟩]))) ∨
    (∃ e, Save (logged conn) token b expiry (s, []) =
        (some e, ((Save conn token b expiry s).2,
          [⟨.MULTI, .sent⟩, ⟨.SET (Prefix ++ token) b, .sent⟩,
           ⟨.PEXPIREAT (Prefix ++ token) (makeMillisecondTimestamp expiry), .sent⟩,
           ⟨.EXEC, .failed e⟩]))) ∨
    (∃ v, Save (logged conn) token b expiry (s, []) =
        (none, ((Save conn token b expiry s).2,
          [⟨.MULTI, .sent⟩, ⟨.SET (Prefix ++ token) b, .sent⟩,
           ⟨.PEXPIREAT (Prefix ++ token) (makeMillisecondTimestamp expiry), .sent⟩,
           ⟨.EXEC, .replied v⟩]))) := by
  simp only [Save, logged_Do, logged_Send, logged_Close]
  rcases conn.Send .MULTI s with ⟨_ | e1, s1⟩ <;> simp [Outcome.ofSend]
  rcases conn.Send (.SET (Prefix ++ token) b) s1 with ⟨_ | e2, s2⟩ <;> simp [Outcome.ofSend]
  rcases conn.Send (.PEXPIREAT (Prefix ++ token) (makeMillisecondTimestamp expiry)) s2
    with ⟨_ | e3, s3⟩ <;> simp [Outcome.ofSend]
  rcases conn.Do .EXEC s3 with ⟨_ | v, s4⟩ <;> simp [Outcome.ofReply]

/-- Every PEXPIREAT that `Save` issues is on the namespaced key and carries
`makeMillisecondTimestamp expiry`. -/
theorem Save_pexpireat {σ : Type} (conn : Conn σ) (token : String) (b : Bytes) (expiry : Time)
    (s : σ) (call : Call) (hc : call ∈ (Save (logged conn) token b expiry (s, [])).2.2)
    (key : String) (ms : Int) (hk : call.cmd = .PEXPIREAT key ms) :
    key = Prefix ++ token ∧ ms = makeMillisecondTimestamp expiry := by
  rcases Save_calls conn token b expiry s with ⟨e, h⟩ | ⟨e, h⟩ | ⟨e, h⟩ | ⟨e, h⟩ | ⟨v, h⟩ <;>
    rw [h] at hc <;> simp at hc
  · subst hc; simp at hk
  · rcases hc with hc | hc <;> subst hc <;> simp at hk
  · rcases hc with hc | hc | hc <;> subst hc <;> simp at hk
    exact ⟨hk.1.symm, hk.2.symm⟩
  · rcases hc with hc | hc | hc | hc <;> subst hc <;> simp at hk
    exact ⟨hk.1.symm, hk.2.symm⟩
  · rcases hc with hc | hc | hc | hc <;> subst hc <;> simp at hk
    exact ⟨hk.1.symm, hk.2.symm⟩

/-! ## The server, command by command -/

theorem server_Do (cmd : Command) (s : Server) : server.Do cmd s = s.roundTrip cmd := rfl

theorem server_Send (cmd : Command) (s : Server) :
    server.Send cmd s =
      match s.nextFault with
      | none => (none, (s.pop.serve cmd).2)
      | some (.dropped err) => (some err, s.pop)
      | some (.replyLost err) => (some err, (s.pop.serve cmd).2) := rfl

theorem server_Close (s : Server) : server.Close s = { s with queue := none } := rfl

theorem serve_MULTI {s : Server} (h : s.queue = none) :
    s.serve .MULTI = (.ok (.status "OK"), { s with queue := some [] }) := by
  simp [Server.serve, h]

theorem serve_SET {s : Server} {q : List Command} (h : s.queue = some q) (key : String)
    (b : Bytes) :
    s.serve (.SET key b) = (.ok (.status "QUEUED"), { s with queue := some (q ++ [.SET key b]) }) := by
  simp [Server.serve, h]

theorem serve_PEXPIREAT {s : Server} {q : List Command} (h : s.queue = some q) (key : String)
    (ms : Int) :
    s.serve (.PEXPIREAT key ms) =
      (.ok (.status "QUEUED"), { s with queue := some (q ++ [.PEXPIREAT key ms]) }) := by
  simp [Server.serve, h]

theorem serve_EXEC {s : Server} {q : List Command} (h : s.queue = some q) :
    s.serve .EXEC = (.ok (.array 0 []), Server.runAll { s with queue := none } q) := by
  simp [Server.serve, h]

theorem serve_GET {s : Server} (h : s.queue = none) (key : String) :
    s.serve (.GET key) = (.ok (s.run (.GET key)).1, s) := by
  simp only [Server.serve, h, Server.run]
  cases s.lookup key <;> rfl

theorem serve_DEL {s : Server} (h : s.queue = none) (key : String) :
    s.serve (.DEL key) =
      (.ok (.int (if (s.lookup key).isSome then 1 else 0)),
        { s with store := Function.update s.store key none }) := by
  simp [Server.serve, h, Server.run]

/-- The two commands of the transaction of `Save`, run by EXEC: the key holds the
new payload with the new expiry, nothing else changes. -/
theorem runAll_SET_PEXPIREAT (s : Server) (key : String) (b : Bytes) (ms : Int) :
    Server.runAll s [.SET key b, .PEXPIREAT key ms] =
      { s with store := Function.update s.store key (some ⟨b, some ms⟩) } := by
  simp [Server.runAll, Server.run, Server.lookup]



@[simp] theorem pop_store (s : Server) : s.pop.store = s.store := rfl
@[simp] theorem pop_clock (s : Server) : s.pop.clock = s.clock := rfl
@[simp] theorem pop_queue (s : Server) : s.pop.queue = s.queue := rfl
@[simp] theorem pop_pages (s : Server) : s.pop.pages = s.pages := rfl
@[simp] theorem pop_faults (s : Server) : s.pop.faults = s.faults.tail := rfl

/-- Sending MULTI on a connection with no transaction open: the keyspace is as it
was, and the queue is open and empty when the send succeeds. -/
theorem Send_MULTI (s : Server) (hq : s.queue = none) :
    (server.Send .MULTI s).2.store = s.store ∧ (server.Send .MULTI s).2.clock = s.clock ∧
    (server.Send .MULTI s).2.pages = s.pages ∧
    (server.Send .MULTI s).2.faults = s.faults.tail ∧
    ((server.Send .MULTI s).1 = none → (server.Send .MULTI s).2.queue = some []) := by
  have hp : s.pop.queue = none := hq
  rw [server_Send, serve_MULTI hp]
  rcases s.nextFault with _ | ⟨e | e⟩ <;> simp

/-- Sending SET inside a transaction only queues it. -/
theorem Send_SET (s : Server) (q : List Command) (hq : s.queue = some q) (key : String)
    (b : Bytes) :
    (server.Send (.SET key b) s).2.store = s.store ∧
    (server.Send (.SET key b) s).2.clock = s.clock ∧
    (server.Send (.SET key b) s).2.pages = s.pages ∧
    (server.Send (.SET key b) s).2.faults = s.faults.tail ∧
    ((server.Send (.SET key b) s).1 = none →
      (server.Send (.SET key b) s).2.queue = some (q ++ [.SET key b])) := by
  have hp : s.pop.queue = some q := hq
  rw [server_Send, serve_SET hp]
  rcases s.nextFault with _ | ⟨e | e⟩ <;> simp

/-- Sending PEXPIREAT inside a transaction only queues it. -/
theorem Send_PEXPIREAT (s : Server) (q : List Command) (hq : s.queue = some q) (key : String)
    (ms : Int) :
    (server.Send (.PEXPIREAT key ms) s).2.store = s.store ∧
    (server.Send (.PEXPIREAT key ms) s).2.clock = s.clock ∧
    (server.Send (.PEXPIREAT key ms) s).2.pages = s.pages ∧
    (server.Send (.PEXPIREAT key ms) s).2.faults = s.faults.tail ∧
    ((server.Send (.PEXPIREAT key ms) s).1 = none →
      (server.Send (.PEXPIREAT key ms) s).2.queue = some (q ++ [.PEXPIREAT key ms])) := by
  have hp : s.pop.queue = some q := hq
  rw [server_Send, serve_PEXPIREAT hp]
  rcases s.nextFault with _ | ⟨e | e⟩ <;> simp

/-- EXEC on the transaction of `Save`: the key holds the new pair when the server
ran the transaction, the keyspace is as it was when the command was lost; a reply
means the transaction was run. -/
theorem Do_EXEC (s : Server) (key : String) (b : Bytes) (ms : Int)
    (hq : s.queue = some [.SET key b, .PEXPIREAT key ms]) :
    ((server.Do .EXEC s).2.store = s.store ∨
      (server.Do .EXEC s).2.store = Function.update s.store key (some ⟨b, some ms⟩)) ∧
    (server.Do .EXEC s).2.clock = s.clock ∧
    (server.Do .EXEC s).2.pages = s.pages ∧
    (server.Do .EXEC s).2.faults = s.faults.tail ∧
    (∀ v, (server.Do .EXEC s).1 = .ok v →
      (server.Do .EXEC s).2.store = Function.update s.store key (some ⟨b, some ms⟩)) := by
  have hp : s.pop.queue = some [.SET key b, .PEXPIREAT key ms] := hq
  rw [server_Do, Server.roundTrip, serve_EXEC hp, runAll_SET_PEXPIREAT]
  rcases s.nextFault with _ | ⟨e | e⟩ <;> simp

theorem Save_server (s : Server) (hq : s.queue = none) (token : String) (b : Bytes)
    (expiry : Time) :
    ((Save server token b expiry s).1 = none →
      (Save server token b expiry s).2.store =
        Function.update s.store (Prefix ++ token)
          (some ⟨b, some (makeMillisecondTimestamp expiry)⟩) ∧
      (Save server token b expiry s).2.faults = s.faults.drop 4) ∧
    ((Save server token b expiry s).2.store = s.store ∨
      (Save server token b expiry s).2.store =
        Function.update s.store (Prefix ++ token)
          (some ⟨b, some (makeMillisecondTimestamp expiry)⟩)) ∧
    (Save server token b expiry s).2.clock = s.clock ∧
    (Save server token b expiry s).2.queue = none ∧
    (Save server token b expiry s).2.pages = s.pages := by
  have h1 := Send_MULTI s hq
  unfold Save
  rcases hs1 : server.Send .MULTI s with ⟨_ | e1, s1⟩ <;> rw [hs1] at h1 <;> dsimp only at h1 ⊢
  swap
  · simp [server_Close, h1.1, h1.2.1, h1.2.2.1]
  have h2 := Send_SET s1 [] (h1.2.2.2.2 rfl) (Prefix ++ token) b
  rcases hs2 : server.Send (.SET (Prefix ++ token) b) s1 with ⟨_ | e2, s2⟩ <;>
    rw [hs2] at h2 <;> dsimp only at h2 ⊢
  swap
  · simp [server_Close, h1.1, h1.2.1, h1.2.2.1, h2.1, h2.2.1, h2.2.2.1]
  have h3 := Send_PEXPIREAT s2 _ (h2.2.2.2.2 rfl) (Prefix ++ token)
    (makeMillisecondTimestamp expiry)
  rcases hs3 : server.Send (.PEXPIREAT (Prefix ++ token) (makeMillisecondTimestamp expiry)) s2
    with ⟨_ | e3, s3⟩ <;> rw [hs3] at h3 <;> dsimp only at h3 ⊢
  swap
  · simp [server_Close, h1.1, h1.2.1, h1.2.2.1, h2.1, h2.2.1, h2.2.2.1, h3.1, h3.2.1, h3.2.2.1]
  have h4 := Do_EXEC s3 (Prefix ++ token) b (makeMillisecondTimestamp expiry)
    (by simpa using h3.2.2.2.2 rfl)
  rcases hs4 : server.Do .EXEC s3 with ⟨e4 | v4, s4⟩ <;> rw [hs4] at h4 <;>
    simp only [h1.1, h1.2.1, h1.2.2.1, h1.2.2.2.1, h2.1, h2.2.1, h2.2.2.1, h2.2.2.2.1, h3.1,
      h3.2.1, h3.2.2.1, h3.2.2.2.1] at h4 <;> dsimp only at h4 ⊢
  · simp [server_Close, h4.1, h4.2.1, h4.2.2.1]
  · have hst := h4.2.2.2.2 v4 rfl
    have htail : ∀ l : List (Option Fault), l.tail.tail.tail.tail = l.drop 4 := by
      intro l
      rcases l with _ | ⟨_, _ | ⟨_, _ | ⟨_, _ | ⟨_, _⟩⟩⟩⟩ <;> rfl
    simp [server_Close, h4.2.1, h4.2.2.1, h4.2.2.2.1, hst, htail]

/-- What `Find` returns on the server, on a connection with no transaction open and a round
trip that works: found exactly when the key is there and not expired. -/
theorem Find_server (s : Server) (hq : s.queue = none) (hf : s.nextFault = none)
    (token : String) :
    (Find server token s).1 =
      match s.lookup (Prefix ++ token) with
      | some en => ⟨some en.payload, true, none⟩
      | none => ⟨none, false, none⟩ := by
  have hp : s.pop.queue = none := hq
  have hl : s.pop.lookup (Prefix ++ token) = s.lookup (Prefix ++ token) := rfl
  simp only [Find, server_Do, Server.roundTrip, hf, serve_GET hp, Server.run, hl]
  cases s.lookup (Prefix ++ token) <;> simp [redisBytes]

/-- What `Delete` does on the server, on a connection with no transaction open: the key is
removed when the command reaches the server, and nothing else changes. -/
theorem Delete_server (s : Server) (hq : s.queue = none) (token : String) :
    ((Delete server token s).2.store = s.store ∨
      (Delete server token s).2.store = Function.update s.store (Prefix ++ token) none) ∧
    (s.nextFault = none →
      (Delete server token s).1 = none ∧
      (Delete server token s).2.store = Function.update s.store (Prefix ++ token) none) ∧
    (Delete server token s).2.clock = s.clock ∧
    (Delete server token s).2.queue = none ∧
    (Delete server token s).2.pages = s.pages ∧
    (Delete server token s).2.faults = s.faults.tail := by
  have hp : s.pop.queue = none := hq
  simp only [Delete, server_Do, Server.roundTrip, serve_DEL hp, server_Close]
  rcases s.nextFault with _ | ⟨e | e⟩ <;> simp

/-- A `Delete` of a key that is not there, on a server without faults and with no
transaction open, leaves the server as it is. -/
theorem Delete_absent_noop (s : Server) (hq : s.queue = none) (token : String)
    (h0 : s.store (Prefix ++ token) = none) (hfl : s.faults = []) :
    (Delete server token s).2 = s := by
  have hf : s.nextFault = none := by simp [Server.nextFault, hfl]
  obtain ⟨-, h1, hclock, hqueue, hpages, hfaults⟩ := Delete_server s hq token
  obtain ⟨-, hstore⟩ := h1 hf
  have e1 : (Delete server token s).2.store = s.store := by
    rw [hstore, ← h0]
    exact Function.update_eq_self _ _
  rw [hfl] at hfaults
  rcases hd : (Delete server token s).2 with ⟨st, cl, qu, pg, fl⟩
  rw [hd] at e1 hclock hqueue hpages hfaults
  rcases s with ⟨st0, cl0, qu0, pg0, fl0⟩
  simp only at e1 hclock hqueue hpages hfaults hq hfl
  simp [e1, hclock, hqueue, hpages, hfaults, hq, hfl]

/-! ## DeleteByPattern on every connection -/

/-- What the scan loop adds to the record: SCAN commands with the match expression
and nothing else; when the loop leaves with `keys`, they are the keys of a page
that carried cursor 0, and every scan was answered. -/
theorem scanLoop_logged {σ : Type} (conn : Conn σ) (matchPattern : String) (fuel : Nat) :
    ∀ (itr : Int) (s : σ) (l : List Call),
    ∃ tr, (scanLoop (logged conn) matchPattern fuel itr (s, l)).2.2 = l ++ tr ∧
      (∀ call ∈ tr, ∃ i, call.cmd = .SCAN i matchPattern) ∧
      (∀ keys, (scanLoop (logged conn) matchPattern fuel itr (s, l)).1 = some (.ok keys) →
        (∃ i, (⟨.SCAN i matchPattern, .replied (.array 0 keys)⟩ : Call) ∈ tr) ∧
        ∀ call ∈ tr, ∃ v, call.outcome = .replied v) := by
  induction fuel with
  | zero =>
    intro itr s l
    exact ⟨[], by simp [scanLoop]⟩
  | succ fuel ih =>
    intro itr s l
    rcases h : conn.Do (.SCAN itr matchPattern) s with ⟨r, s1⟩
    rcases r with e | v
    · exact ⟨[⟨.SCAN itr matchPattern, .failed e⟩],
        by simp [scanLoop, h, redisMultiBulk, Outcome.ofReply]⟩
    · cases v with
      | array itr1 keys =>
        by_cases h0 : itr1 = 0
        · subst h0
          refine ⟨[⟨.SCAN itr matchPattern, .replied (.array 0 keys)⟩], ?_⟩
          simp [scanLoop, h, redisMultiBulk, Outcome.ofReply]
        · obtain ⟨tr, htr, hcmd, hkeys⟩ := ih itr1 s1
            (l ++ [⟨.SCAN itr matchPattern, .replied (.array itr1 keys)⟩])
          have hstep : scanLoop (logged conn) matchPattern (fuel + 1) itr (s, l) =
              scanLoop (logged conn) matchPattern fuel itr1
                (s1, l ++ [⟨.SCAN itr matchPattern, .replied (.array itr1 keys)⟩]) := by
            simp [scanLoop, h, redisMultiBulk, Outcome.ofReply, h0]
          rw [hstep]
          refine ⟨⟨.SCAN itr matchPattern, .replied (.array itr1 keys)⟩ :: tr, ?_, ?_, ?_⟩
          · rw [htr]; simp
          · intro call hc
            rcases List.mem_cons.mp hc with hc | hc
            · exact ⟨itr, by rw [hc]⟩
            · exact hcmd call hc
          · intro ks hks
            obtain ⟨⟨i, hi⟩, hall⟩ := hkeys ks hks
            refine ⟨⟨i, List.mem_cons_of_mem _ hi⟩, ?_⟩
            intro call hc
            rcases List.mem_cons.mp hc with hc | hc
            · exact ⟨_, by rw [hc]⟩
            · exact hall call hc
      | nil =>
        exact ⟨[⟨.SCAN itr matchPattern, .replied .nil⟩],
          by simp [scanLoop, h, redisMultiBulk, Outcome.ofReply]⟩
      | int n =>
        exact ⟨[⟨.SCAN itr matchPattern, .replied (.int n)⟩],
          by simp [scanLoop, h, redisMultiBulk, Outcome.ofReply]⟩
      | status st =>
        exact ⟨[⟨.SCAN itr matchPattern, .replied (.status st)⟩],
          by simp [scanLoop, h, redisMultiBulk, Outcome.ofReply]⟩
      | bulk b =>
        exact ⟨[⟨.SCAN itr matchPattern, .replied (.bulk b)⟩],
          by simp [scanLoop, h, redisMultiBulk, Outcome.ofReply]⟩

/-- What the removal loop adds to the record: UNLINK commands on keys of its list
and nothing else; when it returns nil every one of them was answered. -/
theorem unlinkAll_logged {σ : Type} (conn : Conn σ) (keys : List String) :
    ∀ (s : σ) (l : List Call),
    ∃ tr, (unlinkAll (logged conn) keys (s, l)).2.2 = l ++ tr ∧
      (∀ call ∈ tr, ∃ key ∈ keys, call.cmd = .UNLINK key) ∧
      ((unlinkAll (logged conn) keys (s, l)).1 = none →
        ∀ call ∈ tr, ∃ v, call.outcome = .replied v) := by
  induction keys with
  | nil =>
    intro s l
    exact ⟨[], by simp [unlinkAll]⟩
  | cons key rest ih =>
    intro s l
    rcases h : conn.Do (.UNLINK key) s with ⟨r, s1⟩
    rcases r with e | v
    · exact ⟨[⟨.UNLINK key, .failed e⟩], by simp [unlinkAll, h, Outcome.ofReply]⟩
    · obtain ⟨tr, htr, hcmd, hok⟩ := ih s1 (l ++ [⟨.UNLINK key, .replied v⟩])
      have hstep : unlinkAll (logged conn) (key :: rest) (s, l) =
          unlinkAll (logged conn) rest (s1, l ++ [⟨.UNLINK key, .replied v⟩]) := by
        simp [unlinkAll, h, Outcome.ofReply]
      rw [hstep]
      refine ⟨⟨.UNLINK key, .replied v⟩ :: tr, ?_, ?_, ?_⟩
      · rw [htr]; simp
      · intro call hc
        rcases List.mem_cons.mp hc with hc | hc
        · exact ⟨key, List.mem_cons_self _ _, by rw [hc]⟩
        · obtain ⟨k, hk, hk2⟩ := hcmd call hc
          exact ⟨k, List.mem_cons_of_mem _ hk, hk2⟩
      · intro hnil call hc
        rcases List.mem_cons.mp hc with hc | hc
        · exact ⟨v, by rw [hc]⟩
        · exact hok hnil call hc

/-- The record of `DeleteByPattern`: the scans, then the removals, each removal
on a key of the page the scan loop left with. -/
theorem DeleteByPattern_logged {σ : Type} (conn : Conn σ) (fuel : Nat) (pattern : String)
    (s : σ) :
    ∃ tr1 tr2, (DeleteByPattern (logged conn) fuel pattern (s, [])).2.2 = tr1 ++ tr2 ∧
      (∀ call ∈ tr1, ∃ i, call.cmd = .SCAN i (Prefix ++ pattern ++ "*")) ∧
      (∀ call ∈ tr2, ∃ key, call.cmd = .UNLINK key ∧ ∃ i keys,
        (⟨.SCAN i (Prefix ++ pattern ++ "*"), .replied (.array 0 keys)⟩ : Call) ∈ tr1 ∧
        key ∈ keys) ∧
      ((DeleteByPattern (logged conn) fuel pattern (s, [])).1 = some none →
        ∀ call ∈ tr1 ++ tr2, ∃ v, call.outcome = .replied v) := by
  obtain ⟨tr1, h1, hcmd, hkeys⟩ := scanLoop_logged conn (Prefix ++ pattern ++ "*") fuel 0 s []
  rcases hscan : scanLoop (logged conn) (Prefix ++ pattern ++ "*") fuel 0 (s, [])
    with ⟨r, s1, l1⟩
  rw [hscan] at h1 hkeys
  simp only [List.nil_append] at h1
  subst h1
  rcases r with _ | ⟨e | keys⟩
  · exact ⟨l1, [], by simp [DeleteByPattern, hscan], hcmd, by simp,
      by simp [DeleteByPattern, hscan]⟩
  · exact ⟨l1, [], by simp [DeleteByPattern, hscan], hcmd, by simp,
      by simp [DeleteByPattern, hscan]⟩
  · obtain ⟨⟨i, hi⟩, hall⟩ := hkeys keys rfl
    obtain ⟨tr2, h2, hcmd2, hok2⟩ := unlinkAll_logged conn keys s1 l1
    refine ⟨l1, tr2, by simp [DeleteByPattern, hscan, h2], hcmd, ?_, ?_⟩
    · intro call hc
      obtain ⟨key, hk, hk2⟩ := hcmd2 call hc
      exact ⟨key, hk2, i, keys, hi, hk⟩
    · intro hnil call hc
      have hnil2 : (unlinkAll (logged conn) keys (s1, l1)).1 = none := by
        simpa [DeleteByPattern, hscan] using hnil
      rcases List.mem_append.mp hc with hc | hc
      · exact hall call hc
      · exact hok2 hnil2 call hc

/-! ## DeleteByPattern on a scripted connection -/

/-- A scan whose pages all come back, the last one with cursor 0: the loop leaves
with the keys of that last page, having issued one SCAN per page. -/
theorem scanLoop_scripted_ok (matchPattern : String) (keys : List String) (tl : List Reply)
    (n : Nat) :
    ∀ (pages : List (Int × List String)), (∀ page ∈ pages, page.1 ≠ 0) →
    ∀ (itr : Int) (l : List Call),
    scanLoop (logged scripted) matchPattern (n + pages.length + 1) itr
        (pageReplies pages ++ .ok (.array 0 keys) :: tl, l) =
      (some (.ok keys), (tl, l ++ scanCalls matchPattern itr (pages ++ [(0, keys)]))) := by
  intro pages
  induction pages with
  | nil =>
    intro _ itr l
    simp [pageReplies, scanLoop, scripted, redisMultiBulk, scanCalls, Outcome.ofReply]
  | cons page rest ih =>
    intro hne itr l
    have h0 : page.1 ≠ 0 := hne page (List.mem_cons_self _ _)
    have hrest : ∀ p ∈ rest, p.1 ≠ 0 := fun p hp => hne p (List.mem_cons_of_mem _ hp)
    have hfuel : n + (page :: rest).length + 1 = (n + rest.length + 1) + 1 := by
      simp; omega
    rw [hfuel]
    have hstep : scanLoop (logged scripted) matchPattern ((n + rest.length + 1) + 1) itr
        (pageReplies (page :: rest) ++ .ok (.array 0 keys) :: tl, l) =
        scanLoop (logged scripted) matchPattern (n + rest.length + 1) page.1
          (pageReplies rest ++ .ok (.array 0 keys) :: tl,
            l ++ [⟨.SCAN itr matchPattern, .replied (.array page.1 page.2)⟩]) := by
      simp [pageReplies, scanLoop, scripted, redisMultiBulk, Outcome.ofReply, h0]
    rw [hstep, ih hrest]
    simp [scanCalls]

/-- A scan that fails after some pages: the loop leaves with the error, having
issued one SCAN per page and the one that failed. -/
theorem scanLoop_scripted_err (matchPattern : String) (e : Err) (tl : List Reply) (n : Nat) :
    ∀ (pages : List (Int × List String)), (∀ page ∈ pages, page.1 ≠ 0) →
    ∀ (itr : Int) (l : List Call),
    ∃ i, scanLoop (logged scripted) matchPattern (n + pages.length + 1) itr
        (pageReplies pages ++ .error e :: tl, l) =
      (some (.error e),
        (tl, l ++ (scanCalls matchPattern itr pages ++ [⟨.SCAN i matchPattern, .failed e⟩]))) := by
  intro pages
  induction pages with
  | nil =>
    intro _ itr l
    exact ⟨itr, by
      simp [pageReplies, scanLoop, scripted, redisMultiBulk, scanCalls, Outcome.ofReply]⟩
  | cons page rest ih =>
    intro hne itr l
    have h0 : page.1 ≠ 0 := hne page (List.mem_cons_self _ _)
    have hrest : ∀ p ∈ rest, p.1 ≠ 0 := fun p hp => hne p (List.mem_cons_of_mem _ hp)
    have hfuel : n + (page :: rest).length + 1 = (n + rest.length + 1) + 1 := by
      simp; omega
    rw [hfuel]
    have hstep : scanLoop (logged scripted) matchPattern ((n + rest.length + 1) + 1) itr
        (pageReplies (page :: rest) ++ .error e :: tl, l) =
        scanLoop (logged scripted) matchPattern (n + rest.length + 1) page.1
          (pageReplies rest ++ .error e :: tl,
            l ++ [⟨.SCAN itr matchPattern, .replied (.array page.1 page.2)⟩]) := by
      simp [pageReplies, scanLoop, scripted, redisMultiBulk, Outcome.ofReply, h0]
    obtain ⟨i, hi⟩ := ih hrest page.1
      (l ++ [⟨.SCAN itr matchPattern, .replied (.array page.1 page.2)⟩])
    refine ⟨i, ?_⟩
    rw [hstep, hi]
    simp [scanCalls]

/-- Removals that all succeed: one UNLINK per key, in order. -/
theorem unlinkAll_scripted_ok (rest : List Reply) :
    ∀ (keys : List String) (vs : List Value), vs.length = keys.length →
    ∀ (l : List Call),
    unlinkAll (logged scripted) keys (vs.map Except.ok ++ rest, l) =
      (none, (rest, l ++ unlinkCalls keys vs)) := by
  intro keys
  induction keys with
  | nil =>
    intro vs hlen l
    have : vs = [] := List.length_eq_zero.mp hlen
    subst this
    simp [unlinkAll, unlinkCalls]
  | cons key ks ih =>
    intro vs hlen l
    rcases vs with _ | ⟨v, vs⟩
    · simp at hlen
    · have hlen2 : vs.length = ks.length := by simpa using hlen
      have hstep : unlinkAll (logged scripted) (key :: ks)
          ((v :: vs).map Except.ok ++ rest, l) =
          unlinkAll (logged scripted) ks
            (vs.map Except.ok ++ rest, l ++ [⟨.UNLINK key, .replied v⟩]) := by
        simp [unlinkAll, scripted, Outcome.ofReply]
      rw [hstep, ih vs hlen2]
      simp [unlinkCalls]

/-- Removals of which the one on `k` is the first to fail: the keys before `k` are
removed, the error of `k` is returned, the keys after `k` are never asked for. -/
theorem unlinkAll_scripted_fail (k : String) (post : List String) (e : Err)
    (rest : List Reply) :
    ∀ (pre : List String) (vs : List Value), vs.length = pre.length →
    ∀ (l : List Call),
    unlinkAll (logged scripted) (pre ++ k :: post) (vs.map Except.ok ++ .error e :: rest, l) =
      (some e, (rest, l ++ (unlinkCalls pre vs ++ [⟨.UNLINK k, .failed e⟩]))) := by
  intro pre
  induction pre with
  | nil =>
    intro vs hlen l
    have : vs = [] := List.length_eq_zero.mp hlen
    subst this
    simp [unlinkAll, unlinkCalls, scripted, Outcome.ofReply]
  | cons key ks ih =>
    intro vs hlen l
    rcases vs with _ | ⟨v, vs⟩
    · simp at hlen
    · have hlen2 : vs.length = ks.length := by simpa using hlen
      have hstep : unlinkAll (logged scripted) (key :: ks ++ k :: post)
          ((v :: vs).map Except.ok ++ .error e :: rest, l) =
          unlinkAll (logged scripted) (ks ++ k :: post)
            (vs.map Except.ok ++ .error e :: rest, l ++ [⟨.UNLINK key, .replied v⟩]) := by
        simp [unlinkAll, scripted, Outcome.ofReply]
      rw [hstep, ih vs hlen2]
      simp [unlinkCalls]

/-- The record of a paged scan holds SCAN commands only. -/
theorem scanCalls_cmd (matchPattern : String) :
    ∀ (pages : List (Int × List String)) (itr : Int),
    ∀ call ∈ scanCalls matchPattern itr pages, ∃ i, call.cmd = .SCAN i matchPattern := by
  intro pages
  induction pages with
  | nil =>
    intro itr call hc
    simp [scanCalls] at hc
  | cons page rest ih =>
    intro itr call hc
    simp only [scanCalls, List.mem_cons] at hc
    rcases hc with hc | hc
    · exact ⟨itr, by rw [hc]⟩
    · exact ih page.1 call hc

/-- The record of removals that succeed names the keys in order. -/
theorem unlinkCalls_cmd :
    ∀ (keys : List String) (vs : List Value), vs.length = keys.length →
    (unlinkCalls keys vs).map Call.cmd = keys.map Command.UNLINK := by
  intro keys
  induction keys with
  | nil =>
    intro vs _
    simp [unlinkCalls]
  | cons key rest ih =>
    intro vs hlen
    rcases vs with _ | ⟨v, vs⟩
    · simp at hlen
    · have hlen2 : vs.length = rest.length := by simpa using hlen
      have := ih vs hlen2
      simp only [unlinkCalls] at this
      simp [unlinkCalls, this]

/-! ## DeleteByPattern on the server -/

/-- SCAN changes no key, and the keys of its reply are those of the page the
server has for the cursor and the match expression. -/
theorem Do_SCAN (s : Server) (itr : Int) (matchPattern : String) :
    (server.Do (.SCAN itr matchPattern) s).2.store = s.store ∧
    (server.Do (.SCAN itr matchPattern) s).2.pages = s.pages ∧
    ∀ c keys, (server.Do (.SCAN itr matchPattern) s).1 = .ok (.array c keys) →
      keys = (s.pages itr matchPattern).2 := by
  have hserve : (s.pop.serve (.SCAN itr matchPattern)).2.store = s.store ∧
      (s.pop.serve (.SCAN itr matchPattern)).2.pages = s.pages ∧
      ∀ c keys, (s.pop.serve (.SCAN itr matchPattern)).1 = .ok (.array c keys) →
        keys = (s.pages itr matchPattern).2 := by
    unfold Server.serve
    rcases hq : s.pop.queue with _ | q
    · simp only [Server.run, pop_store, pop_pages]
      refine ⟨trivial, trivial, ?_⟩
      intro c keys h
      simp only [Except.ok.injEq, Value.array.injEq] at h
      exact h.2.symm
    · simp
  simp only [server_Do, Server.roundTrip]
  rcases s.nextFault with _ | ⟨e | e⟩
  · exact hserve
  · simp
  · exact ⟨hserve.1, hserve.2.1, by simp⟩

/-- The scan loop changes no key, and the keys it leaves with are a page of the
server. -/
theorem scanLoop_server (matchPattern : String) (fuel : Nat) :
    ∀ (itr : Int) (s : Server),
    (scanLoop server matchPattern fuel itr s).2.store = s.store ∧
    (scanLoop server matchPattern fuel itr s).2.pages = s.pages ∧
    ∀ keys, (scanLoop server matchPattern fuel itr s).1 = some (.ok keys) →
      ∃ i, keys = (s.pages i matchPattern).2 := by
  induction fuel with
  | zero =>
    intro itr s
    simp [scanLoop]
  | succ fuel ih =>
    intro itr s
    obtain ⟨hst, hpg, hks⟩ := Do_SCAN s itr matchPattern
    rcases h : server.Do (.SCAN itr matchPattern) s with ⟨r, s1⟩
    rw [h] at hst hpg hks
    dsimp only at hst hpg hks
    rcases r with e | v
    · simp [scanLoop, h, redisMultiBulk, hst, hpg]
    · cases v with
      | array itr1 keys =>
        have hk := hks itr1 keys rfl
        by_cases h0 : itr1 = 0
        · simp only [scanLoop, h, redisMultiBulk, h0, if_true]
          refine ⟨hst, hpg, ?_⟩
          intro ks hks2
          simp only [Option.some.injEq, Except.ok.injEq] at hks2
          exact ⟨itr, by rw [← hks2, hk]⟩
        · obtain ⟨ih1, ih2, ih3⟩ := ih itr1 s1
          simp only [scanLoop, h, redisMultiBulk, h0, if_false]
          refine ⟨by rw [ih1, hst], by rw [ih2, hpg], ?_⟩
          intro ks hks2
          obtain ⟨i, hi⟩ := ih3 ks hks2
          exact ⟨i, by rw [hi, hpg]⟩
      | nil => simp [scanLoop, h, redisMultiBulk, hst, hpg]
      | int n => simp [scanLoop, h, redisMultiBulk, hst, hpg]
      | status st => simp [scanLoop, h, redisMultiBulk, hst, hpg]
      | bulk b => simp [scanLoop, h, redisMultiBulk, hst, hpg]

/-- UNLINK changes no key but its own, and no page. -/
theorem Do_UNLINK (s : Server) (key k : String) (hne : k ≠ key) :
    (server.Do (.UNLINK key) s).2.store k = s.store k := by
  have hserve : (s.pop.serve (.UNLINK key)).2.store k = s.store k := by
    unfold Server.serve
    rcases hq : s.pop.queue with _ | q
    · simp [Server.run, Function.update_noteq hne]
    · simp
  simp only [server_Do, Server.roundTrip]
  rcases s.nextFault with _ | ⟨e | e⟩
  · exact hserve
  · simp
  · exact hserve

/-- The removal loop changes no key outside its list. -/
theorem unlinkAll_server (k : String) :
    ∀ (keys : List String) (s : Server), k ∉ keys →
    (unlinkAll server keys s).2.store k = s.store k := by
  intro keys
  induction keys with
  | nil =>
    intro s _
    simp [unlinkAll]
  | cons key rest ih =>
    intro s hk
    have hne : k ≠ key := fun h => hk (by rw [h]; exact List.mem_cons_self _ _)
    have hrest : k ∉ rest := fun h => hk (List.mem_cons_of_mem _ h)
    have h1 := Do_UNLINK s key k hne
    rcases h : server.Do (.UNLINK key) s with ⟨r, s1⟩
    rw [h] at h1
    dsimp only at h1
    rcases r with e | v
    · simp [unlinkAll, h, h1]
    · simp only [unlinkAll, h]
      rw [ih s1 hrest, h1]

/-- On the server `DeleteByPattern` leaves alone every key that no page of the
server lists for the match expression. -/
theorem DeleteByPattern_server (fuel : Nat) (pattern : String) (s : Server) (k : String)
    (hk : ∀ itr, k ∉ (s.pages itr (Prefix ++ pattern ++ "*")).2) :
    (DeleteByPattern server fuel pattern s).2.store k = s.store k := by
  obtain ⟨hst, -, hks⟩ := scanLoop_server (Prefix ++ pattern ++ "*") fuel 0 s
  rcases hscan : scanLoop server (Prefix ++ pattern ++ "*") fuel 0 s with ⟨r, s1⟩
  rw [hscan] at hst hks
  dsimp only at hst hks
  rcases r with _ | ⟨e | keys⟩
  · simp [DeleteByPattern, hscan, hst]
  · simp [DeleteByPattern, hscan, server_Close, hst]
  · obtain ⟨i, hi⟩ := hks keys rfl
    have hnot : k ∉ keys := by rw [hi]; exact hk i
    simp only [DeleteByPattern, hscan, server_Close]
    rw [unlinkAll_server k keys s1 hnot, hst]

/-! ## Find -/

/-- C1: whatever the connection answers to the single GET on `Prefix ++ token`,
`Find` returns one of three results: `(nil, false, nil)` when the reply read
through `redis.Bytes` is `redis.ErrNil` (a nil reply: the key is absent),
`(nil, false, e)` with `e` unchanged for any other error, and `(v, true, nil)`
when bytes `v` come back.  `found = true` never comes with an error, the GET is the
only command issued, and on the server a token whose key holds nothing is answered
`(nil, false, nil)`. -/
theorem Find_three_results {σ : Type} (conn : Conn σ) (token : String) (s : σ) :
    (((redisBytes (conn.Do (.GET (Prefix ++ token)) s).1).2 = some Err.ErrNil ∧
        (Find conn token s).1 = ⟨none, false, none⟩) ∨
      (∃ e, e ≠ Err.ErrNil ∧ (redisBytes (conn.Do (.GET (Prefix ++ token)) s).1).2 = some e ∧
        (Find conn token s).1 = ⟨none, false, some e⟩) ∨
      ((redisBytes (conn.Do (.GET (Prefix ++ token)) s).1).2 = none ∧
        (Find conn token s).1 =
          ⟨(redisBytes (conn.Do (.GET (Prefix ++ token)) s).1).1, true, none⟩)) ∧
    ((conn.Do (.GET (Prefix ++ token)) s).1 = .ok .nil →
      (Find conn token s).1 = ⟨none, false, none⟩) ∧
    (∀ e, (conn.Do (.GET (Prefix ++ token)) s).1 = .error e → e ≠ Err.ErrNil →
      (Find conn token s).1 = ⟨none, false, some e⟩) ∧
    (∀ v, (conn.Do (.GET (Prefix ++ token)) s).1 = .ok (.bulk v) →
      (Find conn token s).1 = ⟨some v, true, none⟩) ∧
    ((Find conn token s).1.found = true → (Find conn token s).1.err = none) ∧
    (Find (logged conn) token (s, [])).2.2 =
      [⟨.GET (Prefix ++ token), Outcome.ofReply (conn.Do (.GET (Prefix ++ token)) s).1⟩] ∧
    (∀ sv : Server, sv.queue = none → sv.nextFault = none →
      sv.store (Prefix ++ token) = none → (Find server token sv).1 = ⟨none, false, none⟩) := by
  have hserver : ∀ sv : Server, sv.queue = none → sv.nextFault = none →
      sv.store (Prefix ++ token) = none →
      (Find server token sv).1 = ⟨none, false, none⟩ := by
    intro sv hq hf h0
    rw [Find_server sv hq hf]
    simp [Server.lookup, h0]
  rcases h : conn.Do (.GET (Prefix ++ token)) s with ⟨e | v, s1⟩
  · cases e <;> simp [Find, h, redisBytes, Outcome.ofReply] <;> exact hserver
  · cases v <;> simp [Find, h, redisBytes, errUnexpectedType, Outcome.ofReply] <;>
      exact hserver

/-! ## The millisecond timestamp -/

/-- C10: for an expiry `t` at or after the epoch whose nanosecond count fits an
`int64`, `makeMillisecondTimestamp t` is the whole number of milliseconds since the
epoch, `floor (n / 1000000)`, so `ms * 1000000 ≤ n < (ms + 1) * 1000000`; it is a
function of `t` alone and monotone in `t`; and it is the value every PEXPIREAT of
`Save` carries, the third command of a `Save` whose commands all succeed. -/
theorem makeMillisecondTimestamp_floor (t : Time) (h0 : 0 ≤ t.nanos) (h1 : t.nanos < 2 ^ 63) :
    t.UnixNano = t.nanos ∧
    makeMillisecondTimestamp t = t.nanos / 1000000 ∧
    makeMillisecondTimestamp t * 1000000 ≤ t.nanos ∧
    t.nanos < (makeMillisecondTimestamp t + 1) * 1000000 ∧
    (∀ t2 : Time, t.nanos ≤ t2.nanos → t2.nanos < 2 ^ 63 →
      makeMillisecondTimestamp t ≤ makeMillisecondTimestamp t2) ∧
    (∀ {σ : Type} (conn : Conn σ) (token : String) (b : Bytes) (s : σ) (call : Call),
      call ∈ (Save (logged conn) token b t (s, [])).2.2 →
      ∀ key ms, call.cmd = .PEXPIREAT key ms →
        key = Prefix ++ token ∧ ms = makeMillisecondTimestamp t) ∧
    (∀ (token : String) (b : Bytes) (v1 v2 v3 v4 : Value) (rest : List Reply),
      ((Save (logged scripted) token b t
          (.ok v1 :: .ok v2 :: .ok v3 :: .ok v4 :: rest, [])).2.2).map Call.cmd =
        [.MULTI, .SET (Prefix ++ token) b,
         .PEXPIREAT (Prefix ++ token) (makeMillisecondTimestamp t), .EXEC]) := by
  have hms := makeMillisecondTimestamp_of_nonneg h0 h1
  refine ⟨wrapInt64_of_range (by norm_num; omega) h1, hms, ?_, ?_, ?_, ?_, ?_⟩
  · rw [hms]; omega
  · rw [hms]; omega
  · intro t2 hle h2
    rw [hms, makeMillisecondTimestamp_of_nonneg (le_trans h0 hle) h2]
    omega
  · intro σ conn token b s call hc key ms hk
    exact Save_pexpireat conn token b t s call hc key ms hk
  · intro token b v1 v2 v3 v4 rest
    simp [Save, scripted]

/-- C10 at the instant 1.5 ms after the epoch. -/
theorem makeMillisecondTimestamp_floor_witness :
    makeMillisecondTimestamp ⟨1500000⟩ = (1500000 : Int) / 1000000 :=
  (makeMillisecondTimestamp_floor ⟨1500000⟩ (by decide) (by decide)).2.1

/-! ## Save, then Find -/

/-- C2, as stated, fails: on an empty server whose clock reads 1000500 ns, `Save`
with the expiry 1000900 ns, later than the clock, returns nil, and the `Find` that
follows returns `(nil, false, nil)`: the expiry is sent as millisecond 1, which the
clock has reached. -/
theorem Save_then_Find_same_millisecond :
    ((emptyServer 1000500).clock : Int) < (⟨1000900⟩ : Time).nanos ∧
    (Save server "tok" [66] ⟨1000900⟩ (emptyServer 1000500)).1 = none ∧
    (Find server "tok" (Save server "tok" [66] ⟨1000900⟩ (emptyServer 1000500)).2).1 =
      ⟨none, false, none⟩ := by
  decide

/-- C2, amended: on the server, whatever the key held before (nothing, a payload
without expiry, a payload with an earlier expiry), for every token, payload `B` and
expiry `e2` whose millisecond timestamp is later than the clock in milliseconds:
once `Save token B e2` has returned nil, `Find token` returns `(B, true, nil)`, and
the key holds `B` with the expiry `makeMillisecondTimestamp e2`, so neither the
payload nor the expiry it held before applies. -/
theorem Save_then_Find (s : Server) (hq : s.queue = none) (token : String) (B : Bytes)
    (e2 : Time) (hsave : (Save server token B e2 s).1 = none)
    (hfind : (Save server token B e2 s).2.nextFault = none)
    (hlater : s.nowMs < makeMillisecondTimestamp e2) :
    (Find server token (Save server token B e2 s).2).1 = ⟨some B, true, none⟩ ∧
    (Save server token B e2 s).2.store (Prefix ++ token) =
      some ⟨B, some (makeMillisecondTimestamp e2)⟩ := by
  obtain ⟨h1, -, hclock, hqueue, -⟩ := Save_server s hq token B e2
  obtain ⟨hstore, -⟩ := h1 hsave
  have hkey : (Save server token B e2 s).2.store (Prefix ++ token) =
      some ⟨B, some (makeMillisecondTimestamp e2)⟩ := by
    rw [hstore]; simp
  have hlook : (Save server token B e2 s).2.lookup (Prefix ++ token) =
      some ⟨B, some (makeMillisecondTimestamp e2)⟩ := by
    have hnow : (Save server token B e2 s).2.nowMs = s.nowMs := by
      simp [Server.nowMs, hclock]
    simp [Server.lookup, hkey, hnow, hlater]
  refine ⟨?_, hkey⟩
  rw [Find_server _ hqueue hfind, hlook]

/-- C2, amended, on an empty server at 1000500 ns with an expiry one minute on. -/
theorem Save_then_Find_witness :
    (Find server "tok" (Save server "tok" [66] ⟨60001000500⟩ (emptyServer 1000500)).2).1 =
      ⟨some [66], true, none⟩ :=
  (Save_then_Find (emptyServer 1000500) rfl "tok" [66] ⟨60001000500⟩ (by decide) (by decide)
    (by decide)).1

/-! ## Expiry -/

/-- C6, as stated, fails: the expiry 2^63 + 1 ns before the epoch has a nanosecond
count below the least `int64`; `UnixNano` wraps it to 2^63 - 1, the timestamp sent
is 9223372036854 ms, and one second after the epoch, later than the expiry, `Find`
still returns the payload. -/
theorem Find_after_wrapped_expiry :
    (⟨-2 ^ 63 - 1⟩ : Time).nanos < ((1000000000 : Nat) : Int) ∧
    (Save server "tok" [66] ⟨-2 ^ 63 - 1⟩ (emptyServer 0)).1 = none ∧
    (Find server "tok"
      ((Save server "tok" [66] ⟨-2 ^ 63 - 1⟩ (emptyServer 0)).2.atClock 1000000000)).1 =
      ⟨some [66], true, none⟩ := by
  decide

/-- C6, amended: on the server, for every token, payload and expiry `e` whose
nanosecond count is not below the least `int64` (-2^63): once `Save token payload e`
has returned nil, with nothing but the clock moving, `Find token` at any clock
reading later than `e` returns `(nil, false, nil)`.  No deletion is needed, and the
timestamp sent is never after the millisecond reading of such a clock. -/
theorem Find_after_expiry (s : Server) (hq : s.queue = none) (token : String)
    (payload : Bytes) (e : Time) (hrange : -2 ^ 63 ≤ e.nanos)
    (hsave : (Save server token payload e s).1 = none) (clock : Nat)
    (hafter : e.nanos < (clock : Int))
    (hfind : (Save server token payload e s).2.nextFault = none) :
    (Find server token ((Save server token payload e s).2.atClock clock)).1 =
      ⟨none, false, none⟩ ∧
    makeMillisecondTimestamp e ≤ ((clock / 1000000 : Nat) : Int) := by
  obtain ⟨h1, -, -, hqueue, -⟩ := Save_server s hq token payload e
  obtain ⟨hstore, -⟩ := h1 hsave
  have hms := makeMillisecondTimestamp_le_clock hrange hafter
  have hlook : ((Save server token payload e s).2.atClock clock).lookup (Prefix ++ token) =
      none := by
    simp only [Server.lookup, Server.atClock, hstore, Function.update_same, Server.nowMs]
    rw [if_neg (not_lt.mpr hms)]
  refine ⟨?_, hms⟩
  rw [Find_server ((Save server token payload e s).2.atClock clock) hqueue hfind, hlook]

/-- C6, amended, with an expiry 100 ms after the epoch and the clock at 200 ms. -/
theorem Find_after_expiry_witness :
    (Find server "tok"
      ((Save server "tok" [66] ⟨100000000⟩ (emptyServer 0)).2.atClock 200000000)).1 =
      ⟨none, false, none⟩ :=
  (Find_after_expiry (emptyServer 0) rfl "tok" [66] ⟨100000000⟩ (by decide) (by decide)
    200000000 (by decide) (by decide)).1

/-! ## Delete -/

/-- C5: on the server, where DEL of an absent key succeeds, for every token and
every state in which the round trip of `Delete` works: `Delete token` returns nil,
removes the key `Prefix ++ token` and leaves every other key as it was; when the
token was never saved the keyspace does not change (nor anything else, on a server
without faults); once it has returned, `Find token` returns `(nil, false, nil)`;
and `Delete` applied twice leaves the keyspace `Delete` applied once leaves. -/
theorem Delete_removes_key (s : Server) (hq : s.queue = none) (hf : s.nextFault = none)
    (token : String) :
    (Delete server token s).1 = none ∧
    (Delete server token s).2.store (Prefix ++ token) = none ∧
    (∀ key, key ≠ Prefix ++ token → (Delete server token s).2.store key = s.store key) ∧
    (s.store (Prefix ++ token) = none → (Delete server token s).2.store = s.store) ∧
    (s.store (Prefix ++ token) = none → s.faults = [] → (Delete server token s).2 = s) ∧
    ((Delete server token s).2.nextFault = none →
      (Find server token (Delete server token s).2).1 = ⟨none, false, none⟩) ∧
    (Delete server token (Delete server token s).2).2.store = (Delete server token s).2.store ∧
    (s.faults = [] →
      (Delete server token (Delete server token s).2).2 = (Delete server token s).2) := by
  obtain ⟨-, h1, hclock, hqueue, hpages, hfaults⟩ := Delete_server s hq token
  obtain ⟨hnil, hstore⟩ := h1 hf
  have hkey : (Delete server token s).2.store (Prefix ++ token) = none := by
    rw [hstore]; simp
  have hsame : s.store (Prefix ++ token) = none → (Delete server token s).2.store = s.store := by
    intro h0
    rw [hstore, ← h0]
    exact Function.update_eq_self _ _
  have hall : s.store (Prefix ++ token) = none → s.faults = [] →
      (Delete server token s).2 = s :=
    fun h0 hfl => Delete_absent_noop s hq token h0 hfl
  obtain ⟨h2, -, -, -, -, -⟩ := Delete_server (Delete server token s).2 hqueue token
  have htwice : (Delete server token (Delete server token s).2).2.store =
      (Delete server token s).2.store := by
    rcases h2 with h2 | h2
    · exact h2
    · rw [h2, ← hkey]
      exact Function.update_eq_self _ _
  refine ⟨hnil, hkey, ?_, hsame, hall, ?_, htwice, ?_⟩
  · intro key hne
    rw [hstore, Function.update_noteq hne]
  · intro hf2
    rw [Find_server _ hqueue hf2]
    simp [Server.lookup, hkey]
  · intro hfl
    have hf3 : (Delete server token s).2.faults = [] := by rw [hfaults, hfl]; rfl
    exact Delete_absent_noop (Delete server token s).2 hqueue token hkey hf3

/-- C5 on a server that holds the key: it is there before `Delete` and gone after. -/
theorem Delete_removes_key_witness :
    twoPageServer.store (Prefix ++ "a_1") = some ⟨[120], none⟩ ∧
    (Delete server "a_1" twoPageServer).2.store (Prefix ++ "a_1") = none :=
  ⟨by decide, (Delete_removes_key twoPageServer rfl rfl "a_1").2.1⟩

/-! ## The transaction of Save -/

/-- C8: on every connection `Save` issues MULTI, SET of the payload on
`Prefix ++ token`, PEXPIREAT on `Prefix ++ token` with `makeMillisecondTimestamp
expiry`, EXEC, in this order and nothing else, up to the first of them that fails,
and returns the error of that one (nil when none fails).  On the server, which runs
queued commands only at EXEC, whatever fault strikes whichever command, after `Save`
has returned the key holds the pair it held before or the new pair of payload and
timestamp (the new pair when nil was returned), and no other key has changed. -/
theorem Save_transaction {σ : Type} (conn : Conn σ) (s0 : σ) (s : Server)
    (hq : s.queue = none) (token : String) (b : Bytes) (expiry : Time) :
    ((∃ e, Save (logged conn) token b expiry (s0, []) =
        (some e, ((Save conn token b expiry s0).2, [⟨.MULTI, .failed e⟩]))) ∨
    (∃ e, Save (logged conn) token b expiry (s0, []) =
        (some e, ((Save conn token b expiry s0).2,
          [⟨.MULTI, .sent⟩, ⟨.SET (Prefix ++ token) b, .failed e⟩]))) ∨
    (∃ e, Save (logged conn) token b expiry (s0, []) =
        (some e, ((Save conn token b expiry s0).2,
          [⟨.MULTI, .sent⟩, ⟨.SET (Prefix ++ token) b, .sent⟩,
           ⟨.PEXPIREAT (Prefix ++ token) (makeMillisecondTimestamp expiry), .failed e⟩]))) ∨
    (∃ e, Save (logged conn) token b expiry (s0, []) =
        (some e, ((Save conn token b expiry s0).2,
          [⟨.MULTI, .sent⟩, ⟨.SET (Prefix ++ token) b, .sent⟩,
           ⟨.PEXPIREAT (Prefix ++ token) (makeMillisecondTimestamp expiry), .sent⟩,
           ⟨.EXEC, .failed e⟩]))) ∨
    (∃ v, Save (logged conn) token b expiry (s0, []) =
        (none, ((Save conn token b expiry s0).2,
          [⟨.MULTI, .sent⟩, ⟨.SET (Prefix ++ token) b, .sent⟩,
           ⟨.PEXPIREAT (Prefix ++ token) (makeMillisecondTimestamp expiry), .sent⟩,
           ⟨.EXEC, .replied v⟩])))) ∧
    ((Save server token b expiry s).2.store (Prefix ++ token) = s.store (Prefix ++ token) ∨
      (Save server token b expiry s).2.store (Prefix ++ token) =
        some ⟨b, some (makeMillisecondTimestamp expiry)⟩) ∧
    ((Save server token b expiry s).1 = none →
      (Save server token b expiry s).2.store (Prefix ++ token) =
        some ⟨b, some (makeMillisecondTimestamp expiry)⟩) ∧
    (∀ key, key ≠ Prefix ++ token →
      (Save server token b expiry s).2.store key = s.store key) := by
  obtain ⟨h1, h2, -, -, -⟩ := Save_server s hq token b expiry
  refine ⟨Save_calls conn token b expiry s0, ?_, ?_, ?_⟩
  · rcases h2 with h2 | h2
    · left; rw [h2]
    · right; rw [h2]; simp
  · intro hnil
    rw [(h1 hnil).1]; simp
  · intro key hne
    rcases h2 with h2 | h2
    · rw [h2]
    · rw [h2, Function.update_noteq hne]

/-- C8 on the server with the reply to EXEC lost: `Save` returns the error, and the
key, which held nothing, holds nothing or the new pair; it is the new pair. -/
theorem Save_transaction_witness :
    (Save server "tok" [66] ⟨60000000000⟩ lostReplyServer).1 = some (.other "EOF") ∧
    ((Save server "tok" [66] ⟨60000000000⟩ lostReplyServer).2.store (Prefix ++ "tok") =
        lostReplyServer.store (Prefix ++ "tok") ∨
      (Save server "tok" [66] ⟨60000000000⟩ lostReplyServer).2.store (Prefix ++ "tok") =
        some ⟨[66], some (makeMillisecondTimestamp ⟨60000000000⟩)⟩) ∧
    (Save server "tok" [66] ⟨60000000000⟩ lostReplyServer).2.store (Prefix ++ "tok") =
      some ⟨[66], some 60000⟩ :=
  ⟨by decide,
    (Save_transaction scripted [] lostReplyServer rfl "tok" [66] ⟨60000000000⟩).2.1,
    by decide⟩

/-! ## DeleteByPattern -/

/-- C3, what the code does: with the matching keys spread over two pages, only the
key of the last page is removed.  On a scripted connection the record shows the two
scans and one UNLINK, of `scs:session:a_2`; on the server `DeleteByPattern`
returns nil and `scs:session:a_1` is still found. -/
theorem DeleteByPattern_keeps_first_page :
    DeleteByPattern (logged scripted) 2 "a_"
        ([.ok (.array 5 ["scs:session:a_1"]), .ok (.array 0 ["scs:session:a_2"]),
          .ok (.int 1), .ok (.int 1)], []) =
      (some none, ([.ok (.int 1)],
        [⟨.SCAN 0 "scs:session:a_*", .replied (.array 5 ["scs:session:a_1"])⟩,
         ⟨.SCAN 5 "scs:session:a_*", .replied (.array 0 ["scs:session:a_2"])⟩,
         ⟨.UNLINK "scs:session:a_2", .replied (.int 1)⟩])) ∧
    (DeleteByPattern server 2 "a_" twoPageServer).1 = some none ∧
    (DeleteByPattern server 2 "a_" twoPageServer).2.store "scs:session:a_2" = none ∧
    (DeleteByPattern server 2 "a_" twoPageServer).2.store "scs:session:a_1" =
      some ⟨[120], none⟩ ∧
    (Find server "a_1" (DeleteByPattern server 2 "a_" twoPageServer).2).1 =
      ⟨some [120], true, none⟩ :=
  ⟨rfl, by decide, by decide, by decide, by decide⟩

/-- C4: on every connection, for every pattern and however long the scan runs,
every command `DeleteByPattern` issues is a SCAN with the match expression
`Prefix ++ pattern ++ "*"` or an UNLINK of a key that one of those scans returned;
so when the scans return no key nothing is removed, and a key no scan returned is
never removed.  When the scans return no key and end with cursor 0,
`DeleteByPattern` returns nil after the scans alone; and on the server every key
that no page lists for the match expression keeps its entry. -/
theorem DeleteByPattern_frame {σ : Type} (conn : Conn σ) (fuel : Nat) (pattern : String)
    (s : σ) :
    (∀ call ∈ (DeleteByPattern (logged conn) fuel pattern (s, [])).2.2,
      (∃ itr, call.cmd = .SCAN itr (Prefix ++ pattern ++ "*")) ∨
      ∃ key, call.cmd = .UNLINK key ∧ ∃ itr keys,
        (⟨.SCAN itr (Prefix ++ pattern ++ "*"), .replied (.array 0 keys)⟩ : Call) ∈
          (DeleteByPattern (logged conn) fuel pattern (s, [])).2.2 ∧ key ∈ keys) ∧
    ((∀ itr itr1 keys,
        (⟨.SCAN itr (Prefix ++ pattern ++ "*"), .replied (.array itr1 keys)⟩ : Call) ∈
          (DeleteByPattern (logged conn) fuel pattern (s, [])).2.2 → keys = []) →
      ∀ call ∈ (DeleteByPattern (logged conn) fuel pattern (s, [])).2.2,
        ∃ itr, call.cmd = .SCAN itr (Prefix ++ pattern ++ "*")) ∧
    (∀ key,
      (∀ itr itr1 keys,
        (⟨.SCAN itr (Prefix ++ pattern ++ "*"), .replied (.array itr1 keys)⟩ : Call) ∈
          (DeleteByPattern (logged conn) fuel pattern (s, [])).2.2 → key ∉ keys) →
      ∀ call ∈ (DeleteByPattern (logged conn) fuel pattern (s, [])).2.2,
        call.cmd ≠ .UNLINK key) ∧
    (∀ (cursors : List Int), (∀ c ∈ cursors, c ≠ 0) → cursors.length < fuel →
      ∀ (rest : List Reply),
      DeleteByPattern (logged scripted) fuel pattern
          (pageReplies (cursors.map fun c => (c, [])) ++ .ok (.array 0 []) :: rest, []) =
        (some none, (rest,
          scanCalls (Prefix ++ pattern ++ "*") 0
            ((cursors.map fun c => (c, [])) ++ [(0, [])])))) ∧
    (∀ (sv : Server) (key : String),
      (∀ itr, key ∉ (sv.pages itr (Prefix ++ pattern ++ "*")).2) →
      (DeleteByPattern server fuel pattern sv).2.store key = sv.store key) := by
  obtain ⟨tr1, tr2, hlog, h1, h2, -⟩ := DeleteByPattern_logged conn fuel pattern s
  have hframe : ∀ call ∈ (DeleteByPattern (logged conn) fuel pattern (s, [])).2.2,
      (∃ itr, call.cmd = .SCAN itr (Prefix ++ pattern ++ "*")) ∨
      ∃ key, call.cmd = .UNLINK key ∧ ∃ itr keys,
        (⟨.SCAN itr (Prefix ++ pattern ++ "*"), .replied (.array 0 keys)⟩ : Call) ∈
          (DeleteByPattern (logged conn) fuel pattern (s, [])).2.2 ∧ key ∈ keys := by
    intro call hc
    rw [hlog] at hc ⊢
    rcases List.mem_append.mp hc with hc | hc
    · exact Or.inl (h1 call hc)
    · obtain ⟨key, hk, i, keys, hi, hmem⟩ := h2 call hc
      exact Or.inr ⟨key, hk, i, keys, List.mem_append_left _ hi, hmem⟩
  refine ⟨hframe, ?_, ?_, ?_, ?_⟩
  · intro hempty call hc
    rcases hframe call hc with h | ⟨key, -, i, keys, hi, hmem⟩
    · exact h
    · rw [hempty i 0 keys hi] at hmem
      simp at hmem
  · intro key hnone call hc hcmd
    rcases hframe call hc with ⟨i, h⟩ | ⟨key2, hk2, i, keys, hi, hmem⟩
    · rw [h] at hcmd
      simp at hcmd
    · rw [hk2] at hcmd
      simp only [Command.UNLINK.injEq] at hcmd
      subst hcmd
      exact hnone i 0 keys hi hmem
  · intro cursors hne hfuel rest
    obtain ⟨n, hn⟩ : ∃ n, fuel = n + (cursors.map fun c => ((c, []) : Int × List String)).length + 1 :=
      ⟨fuel - cursors.length - 1, by simp; omega⟩
    have hpages : ∀ page ∈ cursors.map fun c => ((c, []) : Int × List String), page.1 ≠ 0 := by
      intro page hp
      obtain ⟨c, hc, rfl⟩ := List.mem_map.mp hp
      exact hne c hc
    have hscan := scanLoop_scripted_ok (Prefix ++ pattern ++ "*") [] rest n _ hpages 0 []
    rw [← hn] at hscan
    simp [DeleteByPattern, hscan, unlinkAll]
  · intro sv key hk
    exact DeleteByPattern_server fuel pattern sv key hk

/-- C4 on the server that holds `foo_1`, `foo_2` and `bar_1`: after
`DeleteByPattern "foo_"` the key of `bar_1` holds what it held. -/
theorem DeleteByPattern_frame_witness :
    fooBarServer.store "scs:session:bar_1" = some ⟨[120], none⟩ ∧
    (DeleteByPattern server 1 "foo_" fooBarServer).2.store "scs:session:bar_1" =
      fooBarServer.store "scs:session:bar_1" ∧
    (DeleteByPattern server 1 "foo_" fooBarServer).2.store "scs:session:foo_1" = none :=
  ⟨by decide,
    (DeleteByPattern_frame scripted 1 "foo_" []).2.2.2.2 fooBarServer "scs:session:bar_1"
      (fun itr => by simp [fooBarServer]),
    by decide⟩

/-- C7: whatever pages the scan took, when the removal loop runs over the keys
`pre ++ k :: post`, the removals of `pre` succeed and the removal of `k` fails with
`e`, `DeleteByPattern` returns exactly `e`; the record shows the scans, one UNLINK
answered for every key of `pre`, in order, the failed UNLINK of `k`, and nothing
after it: no removal for `post`, nothing undone.  And on every connection
`DeleteByPattern` returns nil only when every command it issued was answered. -/
theorem DeleteByPattern_first_failure (pattern : String) (pages : List (Int × List String))
    (hpages : ∀ page ∈ pages, page.1 ≠ 0) (pre : List String) (k : String)
    (post : List String) (vs : List Value) (hvs : vs.length = pre.length) (e : Err)
    (rest : List Reply) (fuel : Nat) (hfuel : pages.length < fuel) :
    DeleteByPattern (logged scripted) fuel pattern
        (pageReplies pages ++ .ok (.array 0 (pre ++ k :: post)) ::
          (vs.map Except.ok ++ .error e :: rest), []) =
      (some (some e), (rest,
        scanCalls (Prefix ++ pattern ++ "*") 0 (pages ++ [(0, pre ++ k :: post)]) ++
          (unlinkCalls pre vs ++ [⟨.UNLINK k, .failed e⟩]))) ∧
    (unlinkCalls pre vs).map Call.cmd = pre.map Command.UNLINK ∧
    (∀ {σ : Type} (conn : Conn σ) (fuel1 : Nat) (s : σ),
      (DeleteByPattern (logged conn) fuel1 pattern (s, [])).1 = some none →
      ∀ call ∈ (DeleteByPattern (logged conn) fuel1 pattern (s, [])).2.2,
        ∃ v, call.outcome = .replied v) := by
  refine ⟨?_, unlinkCalls_cmd pre vs hvs, ?_⟩
  · obtain ⟨n, hn⟩ : ∃ n, fuel = n + pages.length + 1 := ⟨fuel - pages.length - 1, by omega⟩
    have hscan := scanLoop_scripted_ok (Prefix ++ pattern ++ "*") (pre ++ k :: post)
      (vs.map Except.ok ++ .error e :: rest) n pages hpages 0 []
    rw [← hn] at hscan
    have hunlink := unlinkAll_scripted_fail k post e rest pre vs hvs
      ([] ++ scanCalls (Prefix ++ pattern ++ "*") 0 (pages ++ [(0, pre ++ k :: post)]))
    simp only [DeleteByPattern, hscan, hunlink, scripted_Close, logged_Close]
    simp
  · intro σ conn fuel1 s hnil call hc
    obtain ⟨tr1, tr2, hlog, -, -, hok⟩ := DeleteByPattern_logged conn fuel1 pattern s
    rw [hlog] at hc
    exact hok hnil call hc

/-- C7 with two pages and three keys on the last, of which the second fails. -/
theorem DeleteByPattern_first_failure_witness :
    DeleteByPattern (logged scripted) 2 "a_"
        ([.ok (.array 5 ["scs:session:a_0"]),
          .ok (.array 0 ["scs:session:a_1", "scs:session:a_2", "scs:session:a_3"]),
          .ok (.int 1), .error (.other "EOF"), .ok (.int 1)], []) =
      (some (some (.other "EOF")), ([.ok (.int 1)],
        [⟨.SCAN 0 "scs:session:a_*", .replied (.array 5 ["scs:session:a_0"])⟩,
         ⟨.SCAN 5 "scs:session:a_*",
           .replied (.array 0 ["scs:session:a_1", "scs:session:a_2", "scs:session:a_3"])⟩,
         ⟨.UNLINK "scs:session:a_1", .replied (.int 1)⟩,
         ⟨.UNLINK "scs:session:a_2", .failed (.other "EOF")⟩])) :=
  (DeleteByPattern_first_failure "a_" [(5, ["scs:session:a_0"])] (by decide)
    ["scs:session:a_1"] "scs:session:a_2" ["scs:session:a_3"] [.int 1] rfl (.other "EOF")
    [.ok (.int 1)] 2 (by decide)).1

/-- C9, as stated, fails: the first scan returns a key with cursor 5 and the second
scan fails; `DeleteByPattern` returns the error of the scan after the two SCAN
commands and no UNLINK, and on the server the key of the first page is still
there. -/
theorem DeleteByPattern_scan_error_keeps_keys :
    DeleteByPattern (logged scripted) 2 "a_"
        ([.ok (.array 5 ["scs:session:a_1"]), .error (.other "EOF")], []) =
      (some (some (.other "EOF")), ([],
        [⟨.SCAN 0 "scs:session:a_*", .replied (.array 5 ["scs:session:a_1"])⟩,
         ⟨.SCAN 5 "scs:session:a_*", .failed (.other "EOF")⟩])) ∧
    (DeleteByPattern server 2 "a_"
      ⟨twoPageServer.store, 0, none, twoPageServer.pages,
        [none, some (.dropped (.other "EOF"))]⟩).1 = some (some (.other "EOF")) ∧
    (DeleteByPattern server 2 "a_"
      ⟨twoPageServer.store, 0, none, twoPageServer.pages,
        [none, some (.dropped (.other "EOF"))]⟩).2.store "scs:session:a_1" =
      some ⟨[120], none⟩ :=
  ⟨rfl, by decide, by decide⟩

/-- C9, amended: when the scans of `DeleteByPattern` succeed with non-zero cursors
and the next one fails with `e`, whatever keys the earlier pages returned,
`DeleteByPattern` returns `e` at once: the record holds the scans and no UNLINK, so
the keys of the earlier pages are left in place. -/
theorem DeleteByPattern_scan_error (pattern : String) (pages : List (Int × List String))
    (hpages : ∀ page ∈ pages, page.1 ≠ 0) (e : Err) (rest : List Reply) (fuel : Nat)
    (hfuel : pages.length < fuel) :
    (∃ i, DeleteByPattern (logged scripted) fuel pattern
        (pageReplies pages ++ .error e :: rest, []) =
      (some (some e), (rest,
        scanCalls (Prefix ++ pattern ++ "*") 0 pages ++
          [⟨.SCAN i (Prefix ++ pattern ++ "*"), .failed e⟩]))) ∧
    (∀ call ∈ (DeleteByPattern (logged scripted) fuel pattern
        (pageReplies pages ++ .error e :: rest, [])).2.2,
      ∀ key, call.cmd ≠ .UNLINK key) := by
  obtain ⟨n, hn⟩ : ∃ n, fuel = n + pages.length + 1 := ⟨fuel - pages.length - 1, by omega⟩
  obtain ⟨i, hscan⟩ := scanLoop_scripted_err (Prefix ++ pattern ++ "*") e rest n pages hpages 0 []
  rw [← hn] at hscan
  have hres : DeleteByPattern (logged scripted) fuel pattern
        (pageReplies pages ++ .error e :: rest, []) =
      (some (some e), (rest,
        scanCalls (Prefix ++ pattern ++ "*") 0 pages ++
          [⟨.SCAN i (Prefix ++ pattern ++ "*"), .failed e⟩])) := by
    simp [DeleteByPattern, hscan]
  refine ⟨⟨i, hres⟩, ?_⟩
  intro call hc key hcmd
  rw [hres] at hc
  simp only [List.mem_append, List.mem_singleton] at hc
  rcases hc with hc | hc
  · obtain ⟨j, hj⟩ := scanCalls_cmd _ pages 0 call hc
    rw [hj] at hcmd
    simp at hcmd
  · rw [hc] at hcmd
    simp at hcmd

/-- C9, amended, with one page before the scan that fails. -/
theorem DeleteByPattern_scan_error_witness :
    ∃ i, DeleteByPattern (logged scripted) 2 "a_"
        (pageReplies [(5, ["scs:session:a_1"])] ++ .error (.other "EOF") :: [], []) =
      (some (some (.other "EOF")), ([],
        scanCalls (Prefix ++ "a_" ++ "*") 0 [(5, ["scs:session:a_1"])] ++
          [⟨.SCAN i (Prefix ++ "a_" ++ "*"), .failed (.other "EOF")⟩])) :=
  (DeleteByPattern_scan_error "a_" [(5, ["scs:session:a_1"])] (by decide) (.other "EOF") []
    2 (by decide)).1

end RedisStore
